import Mathlib

/-!
Verification of the coverage collection and aggregation engine
(`scripts/coverage.py`) of the hypernetix/hyperspot repository.

The embedding follows the Python source closely:
* Python strings are `List Char` (`PyStr`); `str.split('/')` is `splitSlash`,
  `str.startswith` is `List.isPrefixOf`, `in` on strings is `List.isInfixOf`.
* `int(round((covered / total) * 100.0))` is embedded as exact rational
  round-half-to-even (`percent`), evaluated with integer arithmetic.
* Filesystem and OS interactions (workspace file enumeration, process
  signals, sockets) are passed in as explicit data: a list of
  `(path, non-blank line count)` pairs for `enumerate_project_rs_files` +
  `count_non_empty_lines`, boolean readiness schedules for the probers, and
  a small process-state model for `stop_server`.
-/

namespace HyperspotCoverage

/-- Characters of a Python `str`. -/
abbrev PyStr := List Char

/-- Embeds Python `s.split('/')` (`coverage.py`, `categorize_file`). -/
def splitSlash : PyStr → List PyStr
  | [] => [[]]
  | c :: rest =>
    if c = '/' then [] :: splitSlash rest
    else
      match splitSlash rest with
      | [] => [[c]]
      | p :: ps => (c :: p) :: ps

/-- Embeds `make_relative_path` (`coverage.py` lines 199-216): unify
separators, strip a leading `./`, accept `libs/`/`modules/`/`apps/` relative
paths as-is, otherwise relativize against the project root (the
`Path(s).relative_to(root)` fallback is embedded as stripping the root prefix,
returning `s` unchanged when the root is not a prefix, matching the
`except: return s` branch). -/
def makeRelativePath (filepath root : PyStr) : PyStr :=
  let s := filepath.map (fun c => if c = '\\' then '/' else c)
  let s := if List.isPrefixOf ['.', '/'] s then s.drop 2 else s
  if List.isPrefixOf ("libs/".toList) s ∨ List.isPrefixOf ("modules/".toList) s
      ∨ List.isPrefixOf ("apps/".toList) s then s
  else if List.isPrefixOf (root ++ ['/']) s then s.drop (root.length + 1)
  else s

/-- File categories of `categorize_file`: `'file'`, `'module'`, `'lib'`,
`'external'`. -/
inductive Category
  | file
  | module
  | lib
  | external
deriving DecidableEq, Repr

/-- Embeds `categorize_file` (`coverage.py` lines 219-240). -/
def categorizeFile (relPath : PyStr) : Category × Option PyStr :=
  let relPath := if List.isPrefixOf ['.', '/'] relPath then relPath.drop 2 else relPath
  if List.isPrefixOf ("libs/".toList) relPath then
    let parts := splitSlash relPath
    if 2 ≤ parts.length then (Category.lib, some (parts.getD 1 []))
    else (Category.file, none)
  else if List.isPrefixOf ("modules/".toList) relPath then
    let parts := splitSlash relPath
    if 2 ≤ parts.length then (Category.module, some (parts.getD 1 []))
    else (Category.file, none)
  else if List.isPrefixOf ("apps/".toList) relPath then
    (Category.file, none)
  else
    (Category.external, none)

/-- A covered/total pair (one of the three metric kinds of a coverage
summary). -/
structure Metric where
  covered : Nat
  total : Nat
deriving DecidableEq, Repr

/-- The `file_stats` dictionaries built inside `aggregate_coverage_data`. -/
structure FileStats where
  path : PyStr
  regions : Metric
  functions : Metric
  lines : Metric
deriving DecidableEq, Repr

/-- The per-group aggregation dictionaries of `aggregate_coverage_data`
(`name`, `type`, and the three metrics). -/
structure Group where
  name : PyStr
  type : Category
  regions : Metric
  functions : Metric
  lines : Metric
deriving DecidableEq, Repr

/-- The `total_stats` dictionary of `aggregate_coverage_data`. -/
structure Totals where
  regions : Metric
  functions : Metric
  lines : Metric
deriving DecidableEq, Repr

/-- One record of the `files` array of the `cargo llvm-cov` JSON export,
after the `summary.get(...)` defaulting of `aggregate_coverage_data`:
`filename` plus the three `{covered, count}` summaries. -/
structure RawFile where
  filename : PyStr
  regions : Metric
  functions : Metric
  lines : Metric
deriving DecidableEq, Repr

/-- Pointwise metric addition (the `+=` pairs in `aggregate_coverage_data`). -/
def addMetric (m d : Metric) : Metric :=
  ⟨m.covered + d.covered, m.total + d.total⟩

/-- Running `total_stats` update for one file. -/
def addTotals (t : Totals) (fs : FileStats) : Totals :=
  ⟨addMetric t.regions fs.regions, addMetric t.functions fs.functions,
    addMetric t.lines fs.lines⟩

/-- The `file_stats` record built for one raw JSON record. -/
def fileStatsOf (root : PyStr) (fd : RawFile) : FileStats :=
  ⟨makeRelativePath fd.filename root, fd.regions, fd.functions, fd.lines⟩

/-- Adding one file's metrics into a group (the inner `for metric in ...`
loop of `aggregate_coverage_data`). -/
def bumpGroup (fs : FileStats) (g : Group) : Group :=
  { g with
    regions := addMetric g.regions fs.regions
    functions := addMetric g.functions fs.functions
    lines := addMetric g.lines fs.lines }

/-- Embeds the `groups` dict update: `groups` is keyed by `group_name`
alone (not by `(type, name)`); a missing key appends a fresh entry whose
`type` is the current file's category, an existing key is bumped in place.
Insertion order of a Python dict is the list order here. -/
def addToGroups (cat : Category) (gname : PyStr) (fs : FileStats) :
    List Group → List Group
  | [] => [⟨gname, cat, fs.regions, fs.functions, fs.lines⟩]
  | g :: gs =>
    if g.name = gname then bumpGroup fs g :: gs
    else g :: addToGroups cat gname fs gs

/-- Embeds the Python guard `if category in ['module', 'lib'] and group_name:`
(an empty or absent group name is falsy). -/
def groupWorthy (cat : Category) (gname : Option PyStr) : Bool :=
  (cat = Category.module || cat = Category.lib) &&
    match gname with
    | some n => !n.isEmpty
    | none => false

/-- The in-progress state of `aggregate_coverage_data`:
`individual_files`, `groups` (as the dict's insertion-ordered entries), and
`total_stats`. -/
structure AggState where
  files : List FileStats
  groups : List Group
  total : Totals
deriving DecidableEq, Repr

/-- One iteration of the `for file_data in files_data:` loop of
`aggregate_coverage_data`. -/
def aggStep (root : PyStr) (st : AggState) (fd : RawFile) : AggState :=
  let rel := makeRelativePath fd.filename root
  let cg := categorizeFile rel
  if cg.1 = Category.external then st
  else
    let fs : FileStats := ⟨rel, fd.regions, fd.functions, fd.lines⟩
    { files := st.files ++ [fs]
      groups :=
        if groupWorthy cg.1 cg.2 then addToGroups cg.1 (cg.2.getD []) fs st.groups
        else st.groups
      total := addTotals st.total fs }

/-- The zero-initialised aggregation state. -/
def initAgg : AggState :=
  ⟨[], [], ⟨⟨0, 0⟩, ⟨0, 0⟩, ⟨0, 0⟩⟩⟩

/-- Embeds `aggregate_coverage_data` (`coverage.py` lines 267-333). -/
def aggregateCoverageData (root : PyStr) (filesData : List RawFile) : AggState :=
  filesData.foldl (aggStep root) initAgg

/-- Embeds the percentage computation of `format_coverage_cell`:
`int(round((covered / total) * 100.0))` guarded by `if total == 0`.
Python's `round` rounds half to even; the float product is embedded as the
exact rational `covered * 100 / total`, evaluated with integer division
and remainder. -/
def percent (covered total : Nat) : Nat :=
  if total = 0 then 0
  else
    let q := covered * 100 / total
    let r := covered * 100 % total
    if 2 * r < total then q
    else if total < 2 * r then q + 1
    else if q % 2 = 0 then q else q + 1

/-- The terminal-relevant part of the process environment read (or, for
`noColor`, deliberately not read) by `supports_color`:
`sys.stdout.isatty()`, `COLORTERM`, `TERM`, and whether a `NO_COLOR`
no-color signal is present in the environment. -/
structure Env where
  isattyStdout : Bool
  colorterm : PyStr
  term : PyStr
  noColor : Bool
deriving DecidableEq, Repr

/-- Embeds Python's substring test `pat in s`. -/
def hasSubstring (pat : PyStr) : PyStr → Bool
  | [] => pat.isEmpty
  | c :: rest => List.isPrefixOf pat (c :: rest) || hasSubstring pat rest

/-- Embeds `supports_color` (`coverage.py` lines 154-169): no color when
stdout is not a tty; otherwise color iff `COLORTERM` is `truecolor`/`24bit`
or `TERM` contains the substring `color`. The `noColor` field is never
consulted, mirroring the source, which reads only `COLORTERM` and `TERM`. -/
def supportsColor (e : Env) : Bool :=
  if !e.isattyStdout then false
  else if e.colorterm == "truecolor".toList || e.colorterm == "24bit".toList then
    true
  else if hasSubstring ("color".toList) e.term then true
  else false

/-- Decimal digits of a natural number (embeds Python's `{n:d}` integer
formatting); fuel-based recursion on the number of digits. -/
def digitsAux : Nat → Nat → PyStr
  | 0, _ => []
  | fuel + 1, n =>
    if n < 10 then [Char.ofNat (48 + n)]
    else digitsAux fuel (n / 10) ++ [Char.ofNat (48 + n % 10)]

/-- Decimal rendering of a natural number. -/
def natDigits (n : Nat) : PyStr := digitsAux (n + 1) n

/-- Right-justify to width 3 (Python's `{percent:3d}`). -/
def rjust3 (s : PyStr) : PyStr := List.replicate (3 - s.length) ' ' ++ s

/-- Left-justify with spaces (Python's `str.ljust` / `{s:<{w}}`). -/
def ljust (w : Nat) (s : PyStr) : PyStr := s ++ List.replicate (w - s.length) ' '

/-- The ANSI escape character `\033`. -/
def esc : Char := Char.ofNat 27

/-- The `cell_text` string of `format_coverage_cell`:
`f"{warning}{percent:3d} % ({missed})"`, with `warning` equal to `'!'`
below the threshold and `' '` otherwise. -/
def cellText (covered total threshold : Nat) : PyStr :=
  let missed := total - covered
  let p := percent covered total
  (if p < threshold then '!' else ' ') ::
    rjust3 (natDigits p) ++ " % (".toList ++ natDigits missed ++ [')']

/-- Embeds `format_coverage_cell` (`coverage.py` lines 172-196): the cell
text left-justified to the cell width, wrapped in `\033[91m`/`\033[0m`
(light red) below the threshold or `\033[92m`/`\033[0m` (light green)
otherwise when `use_color and supports_color()`. -/
def formatCoverageCell (e : Env) (covered total threshold cellWidth : Nat)
    (useColor : Bool) : PyStr :=
  if useColor && supportsColor e then
    if percent covered total < threshold then
      esc :: "[91m".toList ++ ljust cellWidth (cellText covered total threshold)
        ++ esc :: "[0m".toList
    else
      esc :: "[92m".toList ++ ljust cellWidth (cellText covered total threshold)
        ++ esc :: "[0m".toList
  else ljust cellWidth (cellText covered total threshold)

/-- Results a readiness wait can end in. `timeoutValue` is the
`Result`-style timeout value the specification describes (elapsed time and
attempt count); `exitProcess` is a `sys.exit(code)` of the whole process. -/
inductive WaitResult
  | ready
  | timeoutValue (elapsed attempts : Nat)
  | exitProcess (code : Nat)
deriving DecidableEq, Repr

/-- The shared polling loop shape of `wait_for_tcp` / `wait_for_health`
(`coverage.py` lines 84-151): attempt `k` probes the target
(`ready k`); on success the loop returns; otherwise, once the elapsed time
(one abstract time unit per probe-plus-sleep iteration) exceeds
`timeoutSecs`, the source prints an error plus a log tail and calls
`sys.exit(1)`. The fuel argument only bounds the recursion; with fuel
`timeoutSecs + 2` it never runs out before the timeout check fires. -/
def waitLoop (ready : Nat → Bool) (timeoutSecs : Nat) : Nat → Nat → WaitResult
  | 0, _ => WaitResult.exitProcess 1
  | fuel + 1, attempt =>
    if ready attempt then WaitResult.ready
    else if timeoutSecs < attempt + 1 then WaitResult.exitProcess 1
    else waitLoop ready timeoutSecs fuel (attempt + 1)

/-- Embeds `wait_for_tcp`: `ready k` states whether the TCP connect of
attempt `k` succeeds. -/
def waitForTcp (ready : Nat → Bool) (timeoutSecs : Nat) : WaitResult :=
  waitLoop ready timeoutSecs (timeoutSecs + 2) 0

/-- Embeds `wait_for_health`: each iteration probes `/healthz` then
`/health`, and any 2xx answer on either path counts as ready. -/
def waitForHealth (healthzOk healthOk : Nat → Bool) (timeoutSecs : Nat) :
    WaitResult :=
  waitLoop (fun n => healthzOk n || healthOk n) timeoutSecs (timeoutSecs + 2) 0

/-- Process-state model of a server session started by
`start_instrumented_server`: whether the process group is still alive,
whether it ignores the graceful `SIGINT`, and whether a leaked child keeps
listening on the port after the group dies (the platform quirk the source
warns about). -/
structure ServerSession where
  alive : Bool
  ignoresInt : Bool
  zombieListener : Bool
deriving DecidableEq, Repr

/-- Whether a local connection to the session's port would succeed. -/
def portOpen (s : ServerSession) : Bool := s.alive || s.zombieListener

/-- The observable outcome of one `stop_server` call: whether the
"port still occupied" warning was printed, and whether any error escaped
the call. -/
structure StopReport where
  warned : Bool
  errored : Bool
deriving DecidableEq, Repr

/-- Embeds `stop_server` (`coverage.py` lines 712-753).
(1) `os.killpg(..., SIGINT)`: on a dead process group this raises, the
`except` falls back to `Popen.terminate`, itself a no-op on a finished
process; a live group that handles `SIGINT` dies, one that ignores it stays.
(2) `wait(timeout=15)`: on `TimeoutExpired` the group gets `SIGKILL`, which
cannot be ignored, and an unconditional `wait`.
(3) the port is probed; a lingering listener produces a non-fatal warning.
Every exception along the way is caught, so `errored` is always `false`. -/
def stopServer (s : ServerSession) : ServerSession × StopReport :=
  let afterInt : ServerSession := if s.alive then { s with alive := s.ignoresInt } else s
  let afterKill : ServerSession := { afterInt with alive := false }
  (afterKill, ⟨portOpen afterKill, false⟩)

/-- Observable steps of a collection run, in execution order. -/
inductive Event
  | cleanData
  | unitTests
  | serverStart
  | tcpTimeoutExit
  | healthTimeoutExit
  | pytestMissingExit
  | e2eTests
  | testsFailWarning
  | serverStop
deriving DecidableEq, Repr

/-- How a collection run ends: normally, or via `sys.exit(code)`. -/
inductive Outcome
  | ok
  | exited (code : Nat)
deriving DecidableEq, Repr

/-- The externally determined fates of the steps of one integration-mode
collection run: whether the server's port is free beforehand, whether the
TCP and HTTP readiness probes succeed within their budgets, whether
`pytest` is installed, and whether the e2e tests pass. -/
structure RunEnv where
  portFree : Bool
  tcpReady : Bool
  healthReady : Bool
  pytestAvailable : Bool
  testsPass : Bool
deriving DecidableEq, Repr

/-- The `try:` body shared by `collect_e2e_local_coverage` (lines 785-801)
and `cmd_coverage_combined` (lines 1021-1036): TCP wait, health wait, the
pytest availability check inside `run_e2e_tests`, then the tests, with a
non-fatal warning on test failures. Each failing wait or the missing pytest
raises `SystemExit` via `sys.exit(1)`. -/
def e2eTryBody (env : RunEnv) : List Event × Outcome :=
  if !env.tcpReady then ([Event.tcpTimeoutExit], Outcome.exited 1)
  else if !env.healthReady then ([Event.healthTimeoutExit], Outcome.exited 1)
  else if !env.pytestAvailable then ([Event.pytestMissingExit], Outcome.exited 1)
  else if env.testsPass then ([Event.e2eTests], Outcome.ok)
  else ([Event.e2eTests, Event.testsFailWarning], Outcome.ok)

/-- Embeds `collect_e2e_local_coverage` (`coverage.py` lines 756-815):
early return on `skip_build`; otherwise clean, start the server
(`check_port_available` calls `sys.exit(1)` before the process is spawned
when the port is taken), then the `try:` body with `stop_server` in the
`finally:` block — `finally` also runs on the `SystemExit` raised by
`sys.exit`, so the stop event always follows a start event. -/
def collectE2ELocal (skipBuild : Bool) (env : RunEnv) : List Event × Outcome :=
  if skipBuild then ([], Outcome.ok)
  else if !env.portFree then ([Event.cleanData], Outcome.exited 1)
  else
    let body := e2eTryBody env
    ([Event.cleanData, Event.serverStart] ++ body.1 ++ [Event.serverStop], body.2)

/-- Embeds the collection phase of `cmd_coverage_combined`
(`coverage.py` lines 980-1038): clean once, unit tests (failures only
warn), then the server start / `try` / `finally stop_server` sequence. -/
def cmdCoverageCombined (env : RunEnv) : List Event × Outcome :=
  if !env.portFree then ([Event.cleanData, Event.unitTests], Outcome.exited 1)
  else
    let body := e2eTryBody env
    ([Event.cleanData, Event.unitTests, Event.serverStart] ++ body.1
      ++ [Event.serverStop], body.2)

/-- Embeds `collect_unit_coverage` (`coverage.py` lines 509-563): early
return on `skip_build`, otherwise clean and run the unit tests (failures
only warn). -/
def collectUnitCoverage (skipBuild : Bool) (testsPass : Bool) :
    List Event × Outcome :=
  if skipBuild then ([], Outcome.ok)
  else if testsPass then ([Event.cleanData, Event.unitTests], Outcome.ok)
  else ([Event.cleanData, Event.unitTests, Event.testsFailWarning], Outcome.ok)

/-- An `argparse.Namespace` restricted to its boolean attributes, as a list
of (attribute name, value) pairs. -/
def getattrOr (attrs : List (PyStr × Bool)) (name : PyStr) (dflt : Bool) : Bool :=
  match attrs.find? (fun p => p.1 == name) with
  | some p => p.2
  | none => dflt

/-- The boolean attributes argparse creates for the `e2e-local` subcommand
(`coverage.py` lines 1153-1187): `--skip-build` stores into `skip_build`,
`--skip-env-check` into `skip_env_check`; no `no_build` attribute exists. -/
def e2eArgsAttrs (skipBuild skipEnvCheck : Bool) : List (PyStr × Bool) :=
  [("skip_build".toList, skipBuild), ("skip_env_check".toList, skipEnvCheck)]

/-- The boolean attributes argparse creates for the `unit` subcommand
(`coverage.py` lines 1116-1150). -/
def unitArgsAttrs (skipBuild skipEnvCheck : Bool) : List (PyStr × Bool) :=
  [("skip_build".toList, skipBuild), ("skip_env_check".toList, skipEnvCheck)]

/-- The `skip_build` value `cmd_coverage_e2e` computes (line 974):
`args.no_build if hasattr(args, 'no_build') else False`. -/
def cmdCoverageE2eSkipBuild (skipBuild skipEnvCheck : Bool) : Bool :=
  getattrOr (e2eArgsAttrs skipBuild skipEnvCheck) ("no_build".toList) false

/-- The `skip_build` value `cmd_coverage_unit` computes (line 963):
`args.skip_build if hasattr(args, 'skip_build') else False`. -/
def cmdCoverageUnitSkipBuild (skipBuild skipEnvCheck : Bool) : Bool :=
  getattrOr (unitArgsAttrs skipBuild skipEnvCheck) ("skip_build".toList) false

/-- A new zero group appended by the expand-to-project block of
`format_custom_coverage_report`. -/
def newZeroGroup (cat : Category) (n : PyStr) : Group :=
  ⟨n, cat, ⟨0, 0⟩, ⟨0, 0⟩, ⟨0, 0⟩⟩

/-- `found["lines"]["total"] += loc_total` on a group. -/
def addLinesTotal (loc : Nat) (g : Group) : Group :=
  { g with lines := ⟨g.lines.covered, g.lines.total + loc⟩ }

/-- The group lookup of the expand-to-project block: find the first group
matching on both `name` and `type`, bump its lines total; append a fresh
zero group (then bump it) when none matches. -/
def updateFirstGroup (cat : Category) (n : PyStr) (loc : Nat) :
    List Group → List Group
  | [] => [addLinesTotal loc (newZeroGroup cat n)]
  | g :: gs =>
    if g.name = n ∧ g.type = cat then addLinesTotal loc g :: gs
    else g :: updateFirstGroup cat n loc gs

/-- The `file_stats` record synthesised for an untested workspace file
(`format_custom_coverage_report` lines 436-441): zero covered everywhere,
zero totals except `lines.total`, which is the `count_non_empty_lines`
result paired with the path in `entry`. -/
def syntheticRecord (entry : PyStr × Nat) : FileStats :=
  ⟨entry.1, ⟨0, 0⟩, ⟨0, 0⟩, ⟨0, entry.2⟩⟩

/-- One iteration of the `for rel in enumerate_project_rs_files(...)` loop
of `format_custom_coverage_report` (lines 431-459). `covered` is the
`covered_paths` set computed once before the loop; only the matched (or
new) group's `lines.total` and the grand total's `lines.total` change. -/
def expandStep (covered : List PyStr) (st : AggState) (entry : PyStr × Nat) :
    AggState :=
  if entry.1 ∈ covered then st
  else
    let cg := categorizeFile entry.1
    let fs : FileStats := syntheticRecord entry
    { files := st.files ++ [fs]
      groups :=
        if groupWorthy cg.1 cg.2 then
          updateFirstGroup cg.1 (cg.2.getD []) entry.2 st.groups
        else st.groups
      total := { st.total with
                 lines := ⟨st.total.lines.covered, st.total.lines.total + entry.2⟩ } }

/-- Embeds the whole `if expand_to_project:` block of
`format_custom_coverage_report` (`coverage.py` lines 428-459), with the
workspace scan `enumerate_project_rs_files` + `count_non_empty_lines`
passed in as the list `ws` of (relative path, non-blank line count)
pairs. -/
def expandToProject (st : AggState) (ws : List (PyStr × Nat)) : AggState :=
  let covered := st.files.map FileStats.path
  ws.foldl (expandStep covered) st

/-- Componentwise sum of one metric kind over a list of raw records (the
specification's `Σ file.covered` / `Σ file.total`). -/
def metricSum (proj : RawFile → Metric) (l : List RawFile) : Metric :=
  ⟨(l.map (fun fd => (proj fd).covered)).sum, (l.map (fun fd => (proj fd).total)).sum⟩

/-- Whether `aggregate_coverage_data` classifies a raw record as external. -/
def isExternalFile (root : PyStr) (fd : RawFile) : Bool :=
  (categorizeFile (makeRelativePath fd.filename root)).1 == Category.external

/-- Whether a raw record contributes to the group dict entry keyed `nm`
(classification yields a group-worthy category whose group name is `nm`,
regardless of whether the category is `module` or `lib`). -/
def contributesToName (root nm : PyStr) (fd : RawFile) : Bool :=
  let cg := categorizeFile (makeRelativePath fd.filename root)
  groupWorthy cg.1 cg.2 && (cg.2 == some nm)

/-- The specification's notion of "classified into that group": the record's
classification yields exactly the group's kind and the group's name. -/
def classifiedInto (root : PyStr) (g : Group) (fd : RawFile) : Bool :=
  let cg := categorizeFile (makeRelativePath fd.filename root)
  (cg.1 == g.type) && (cg.2 == some g.name)

/-- Whether a wait result is the specification's `TimeoutError`-carrying
value. -/
def isTimeoutValue : WaitResult → Bool
  | WaitResult.timeoutValue _ _ => true
  | _ => false

/-- Frame relation between a group before and after project expansion:
name, kind, both region counts, both function counts and the covered line
count are unchanged; only the total line count may grow. -/
def linesOnlyExtends (g₀ g : Group) : Prop :=
  g₀.name = g.name ∧ g₀.type = g.type ∧ g₀.regions = g.regions ∧
    g₀.functions = g.functions ∧ g₀.lines.covered = g.lines.covered ∧
    g₀.lines.total ≤ g.lines.total

/-! Theorems. -/

/-- C7: for every coverage metric with `total = 0`, the computed percentage
is `0` for any value of `covered`; the `covered / total` division is behind
the `total == 0` guard and is never evaluated with a zero divisor. -/
theorem percent_of_zero_total (covered : Nat) : percent covered 0 = 0 := by
  simp [percent]

/-- C4: on the dataset with exactly `modules/a/x.rs` regions 8/10 and
`libs/b/y.rs` regions 4/4, aggregation yields group `(module, a)` with
regions 8/10, group `(lib, b)` with regions 4/4, and a grand total with
regions 12/14, rendered as 80%, 100% and 86% respectively. -/
theorem aggregate_happy_path_two_files :
    (aggregateCoverageData []
      [⟨"modules/a/x.rs".toList, ⟨8, 10⟩, ⟨0, 0⟩, ⟨0, 0⟩⟩,
       ⟨"libs/b/y.rs".toList, ⟨4, 4⟩, ⟨0, 0⟩, ⟨0, 0⟩⟩]).groups =
      [⟨"a".toList, Category.module, ⟨8, 10⟩, ⟨0, 0⟩, ⟨0, 0⟩⟩,
       ⟨"b".toList, Category.lib, ⟨4, 4⟩, ⟨0, 0⟩, ⟨0, 0⟩⟩] ∧
    (aggregateCoverageData []
      [⟨"modules/a/x.rs".toList, ⟨8, 10⟩, ⟨0, 0⟩, ⟨0, 0⟩⟩,
       ⟨"libs/b/y.rs".toList, ⟨4, 4⟩, ⟨0, 0⟩, ⟨0, 0⟩⟩]).total.regions = ⟨12, 14⟩ ∧
    percent 8 10 = 80 ∧ percent 4 4 = 100 ∧ percent 12 14 = 86 ∧
    natDigits (percent 8 10) = "80".toList ∧
    natDigits (percent 4 4) = "100".toList ∧
    natDigits (percent 12 14) = "86".toList := by
  decide

/-- C9: stopping an already-stopped session is a no-op: a second
`stop_server` call returns the same state and report as the first, never
lets an error escape, and, absent a leaked zombie listener, leaves the
session's port closed. -/
theorem stop_server_idempotent (s : ServerSession) :
    stopServer (stopServer s).1 = stopServer s ∧
    (stopServer (stopServer s).1).2.errored = false ∧
    (s.zombieListener = false → portOpen (stopServer (stopServer s).1).1 = false) := by
  obtain ⟨a, i, z⟩ := s
  cases a <;> cases i <;> cases z <;> decide

/-- C9 witness: idempotence at a live, interrupt-ignoring, leak-free
session. -/
theorem stop_server_idempotent_witness :
    stopServer (stopServer ⟨true, true, false⟩).1 = stopServer ⟨true, true, false⟩ ∧
    portOpen (stopServer (stopServer ⟨true, true, false⟩).1).1 = false :=
  ⟨(stop_server_idempotent ⟨true, true, false⟩).1,
    (stop_server_idempotent ⟨true, true, false⟩).2.2 rfl⟩

/-- C2: in both integration-mode flows (`collect_e2e_local_coverage` and
`cmd_coverage_combined`) the `finally:` block runs `stop_server` even when
the readiness waits or the workload step raise, so every run whose trace
contains a server start also contains a server stop. -/
theorem server_stop_always_follows_start (skip : Bool) (env : RunEnv) :
    (Event.serverStart ∈ (collectE2ELocal skip env).1 →
      Event.serverStop ∈ (collectE2ELocal skip env).1) ∧
    (Event.serverStart ∈ (cmdCoverageCombined env).1 →
      Event.serverStop ∈ (cmdCoverageCombined env).1) := by
  constructor
  · intro h
    cases skip
    · by_cases hp : env.portFree
      · simp [collectE2ELocal, hp]
      · simp [collectE2ELocal, hp] at h
    · simp [collectE2ELocal] at h
  · intro h
    by_cases hp : env.portFree
    · simp [cmdCoverageCombined, hp]
    · simp [cmdCoverageCombined, hp] at h

/-- C2 witness: a run whose TCP readiness wait fails still stops the
server it started. -/
theorem server_stop_always_follows_start_witness :
    Event.serverStart ∈ (collectE2ELocal false ⟨true, false, true, true, true⟩).1 ∧
    Event.serverStop ∈ (collectE2ELocal false ⟨true, false, true, true, true⟩).1 :=
  ⟨by decide,
    (server_stop_always_follows_start false ⟨true, false, true, true, true⟩).1
      (by decide)⟩

/-- Helper for C3: a never-successful probe schedule drives the wait loop
into the timeout branch for any fuel and attempt counter. -/
theorem waitLoop_never_ready (ready : Nat → Bool) (t : Nat)
    (h : ∀ n, ready n = false) :
    ∀ fuel attempt, waitLoop ready t fuel attempt = WaitResult.exitProcess 1 := by
  intro fuel
  induction fuel with
  | zero => intro a; rfl
  | succ f ih =>
    intro a
    rw [waitLoop, h a]
    by_cases ht : t < a + 1
    · simp [ht]
    · simp [ht, ih]

/-- C3 counterexample: on a target that never becomes ready, the probers do
not surface a `TimeoutError` value; they end in `sys.exit(1)` (a process
exit), so callers cannot branch on a returned timeout value. -/
theorem prober_timeout_is_process_exit_counterexample :
    waitForTcp (fun _ => false) 5 = WaitResult.exitProcess 1 ∧
    isTimeoutValue (waitForTcp (fun _ => false) 5) = false ∧
    waitForHealth (fun _ => false) (fun _ => false) 5 = WaitResult.exitProcess 1 ∧
    isTimeoutValue (waitForHealth (fun _ => false) (fun _ => false) 5) = false := by
  decide

/-- C3 amended: whenever the wall-clock budget elapses with no probe
succeeding, `wait_for_tcp` and `wait_for_health` print an error (tailing
the server log when a path is known) and terminate the whole process via
`sys.exit(1)`; no `TimeoutError` value carrying elapsed time or attempt
count is ever returned to a caller. -/
theorem prober_timeout_exits_process (ready : Nat → Bool) (timeoutSecs : Nat)
    (h : ∀ n, ready n = false) :
    waitForTcp ready timeoutSecs = WaitResult.exitProcess 1 ∧
    waitForHealth ready ready timeoutSecs = WaitResult.exitProcess 1 := by
  refine ⟨waitLoop_never_ready ready timeoutSecs h _ _, ?_⟩
  exact waitLoop_never_ready _ timeoutSecs (fun n => by simp [h n]) _ _

/-- C3 witness: the amended behaviour at a concrete 3-second budget with a
never-ready target. -/
theorem prober_timeout_exits_process_witness :
    waitForTcp (fun _ => false) 3 = WaitResult.exitProcess 1 ∧
    waitForHealth (fun _ => false) (fun _ => false) 3 = WaitResult.exitProcess 1 :=
  prober_timeout_exits_process (fun _ => false) 3 (fun _ => rfl)

/-- C5: the `unit` subcommand honours `--skip-build` (empty collection
trace), but the `e2e-local` subcommand does not: `cmd_coverage_e2e` reads
`args.no_build`, an attribute argparse never defines (the flag stores into
`args.skip_build`), so the computed skip flag is always `False` and the
clean + server start + test phases run anyway — had the flag been
propagated, the collection trace would have been empty. -/
theorem e2e_skip_build_flag_dropped :
    cmdCoverageUnitSkipBuild true false = true ∧
    (collectUnitCoverage (cmdCoverageUnitSkipBuild true false) true).1 = [] ∧
    cmdCoverageE2eSkipBuild true false = false ∧
    (collectE2ELocal (cmdCoverageE2eSkipBuild true false)
        ⟨true, true, true, true, true⟩).1 =
      [Event.cleanData, Event.serverStart, Event.e2eTests, Event.serverStop] ∧
    (collectE2ELocal true ⟨true, true, true, true, true⟩).1 = [] := by
  decide

/-- Separator replacement is the identity on backslash-free strings. -/
theorem map_backslash_id (s : PyStr) (hs : '\\' ∉ s) :
    s.map (fun c => if c = '\\' then '/' else c) = s := by
  induction s with
  | nil => rfl
  | cons c cs ih =>
    have hc : c ≠ '\\' := fun h => hs (h ▸ List.mem_cons_self c cs)
    have hcs : '\\' ∉ cs := fun h => hs (List.mem_cons_of_mem c h)
    simp [List.map, hc, ih hcs]

/-- Python's `split('/')` peels off a separator-free head segment. -/
theorem splitSlash_sepfree_append (xs ys : PyStr) (hx : '/' ∉ xs) :
    splitSlash (xs ++ '/' :: ys) = xs :: splitSlash ys := by
  induction xs with
  | nil => simp [splitSlash]
  | cons c cs ih =>
    have hc : c ≠ '/' := fun h => hx (h ▸ List.mem_cons_self c cs)
    have hcs : '/' ∉ cs := fun h => hx (List.mem_cons_of_mem c h)
    have hstep : splitSlash ((c :: cs) ++ '/' :: ys) =
        match splitSlash (cs ++ '/' :: ys) with
        | [] => [[c]]
        | p :: ps => (c :: p) :: ps := by
      simp [splitSlash, hc]
    rw [hstep, ih hcs]

/-- C6: `./libs/foo/src/bar.rs` normalizes to `libs/foo/src/bar.rs` and
classifies into `(lib, "foo")`; in general, normalization of a
backslash-free `libs/`-prefixed path strips the leading `./` and leaves the
rest untouched, and classification of `libs/<name>/<rest>` with a
separator-free `<name>` yields the library kind with `<name>` as the group
name. -/
theorem normalize_classify_libs_roundtrip :
    (makeRelativePath ("./libs/foo/src/bar.rs".toList) ("/w".toList) =
        "libs/foo/src/bar.rs".toList ∧
      categorizeFile ("libs/foo/src/bar.rs".toList) =
        (Category.lib, some ("foo".toList))) ∧
    (∀ s root : PyStr, '\\' ∉ s →
      List.isPrefixOf ("libs/".toList) s = true →
      makeRelativePath ('.' :: '/' :: s) root = s) ∧
    (∀ name rest : PyStr, '/' ∉ name →
      categorizeFile ("libs/".toList ++ name ++ '/' :: rest) =
        (Category.lib, some name)) := by
  refine ⟨⟨by decide, by decide⟩, ?_, ?_⟩
  · intro s root hbs hpre
    have hmap : ('.' :: '/' :: s).map (fun c => if c = '\\' then '/' else c) =
        '.' :: '/' :: s := by
      simp [List.map, map_backslash_id s hbs]
    have hdot : List.isPrefixOf ['.', '/'] ('.' :: '/' :: s) = true := by
      simp [List.isPrefixOf]
    simp only [makeRelativePath, hmap, hdot, if_true, List.drop_succ_cons,
      List.drop_zero]
    rw [if_pos (Or.inl hpre)]
  · intro name rest hname
    have hsplit : splitSlash ('l' :: 'i' :: 'b' :: 's' :: '/' :: (name ++ '/' :: rest)) =
        "libs".toList :: name :: splitSlash rest := by
      have h1 : ('l' :: 'i' :: 'b' :: 's' :: '/' :: (name ++ '/' :: rest) : PyStr) =
          "libs".toList ++ '/' :: (name ++ '/' :: rest) := rfl
      rw [h1, splitSlash_sepfree_append _ _ (by decide),
        splitSlash_sepfree_append _ _ hname]
    have hpre : List.isPrefixOf ("libs/".toList)
        ("libs/".toList ++ name ++ '/' :: rest) = true := by
      rw [List.append_assoc, List.isPrefixOf_iff_prefix]
      exact List.prefix_append _ _
    have hdot : List.isPrefixOf ['.', '/']
        ("libs/".toList ++ name ++ '/' :: rest) = false := rfl
    simp [categorizeFile, hdot, hpre]
    rw [hsplit]
    simp

/-- C6 witness: the general clauses applied at `./libs/x/y.rs`. -/
theorem normalize_classify_libs_roundtrip_witness :
    makeRelativePath ('.' :: '/' :: "libs/x/y.rs".toList) ("/w".toList) =
      "libs/x/y.rs".toList ∧
    categorizeFile ("libs/".toList ++ "x".toList ++ '/' :: "y.rs".toList) =
      (Category.lib, some ("x".toList)) :=
  ⟨normalize_classify_libs_roundtrip.2.1 ("libs/x/y.rs".toList) ("/w".toList)
      (by decide) (by decide),
    normalize_classify_libs_roundtrip.2.2 ("x".toList) ("y.rs".toList) (by decide)⟩

/-- A decimal digit character is not the ANSI escape character. -/
theorem digit_char_ne_esc (m : Nat) (hm : m < 10) : Char.ofNat (48 + m) ≠ esc := by
  interval_cases m <;> decide

/-- Decimal renderings never contain the ANSI escape character. -/
theorem esc_not_in_digitsAux : ∀ fuel n, esc ∉ digitsAux fuel n := by
  intro fuel
  induction fuel with
  | zero => intro n; simp [digitsAux]
  | succ f ih =>
    intro n
    by_cases h : n < 10
    · simp only [digitsAux, h, if_true, List.mem_singleton]
      exact fun hc => digit_char_ne_esc n h hc.symm
    · simp only [digitsAux, h, if_false, List.mem_append, List.mem_singleton]
      rintro (hc | hc)
      · exact ih _ hc
      · exact digit_char_ne_esc _ (Nat.mod_lt _ (by norm_num)) hc.symm

/-- `natDigits` never contains the ANSI escape character. -/
theorem esc_not_in_natDigits (n : Nat) : esc ∉ natDigits n :=
  esc_not_in_digitsAux _ _

/-- The plain cell text of `format_coverage_cell` contains no ANSI escape
character. -/
theorem esc_not_in_cellText (c t th : Nat) : esc ∉ cellText c t th := by
  intro hmem
  simp only [cellText, List.cons_append, List.mem_cons, List.mem_append] at hmem
  rcases hmem with h0 | (((h1 | h2) | h3) | h4)
  · revert h0; split <;> decide
  · simp only [rjust3, List.mem_append, List.mem_replicate] at h1
    rcases h1 with ⟨_, h⟩ | h
    · exact absurd h (by decide)
    · exact esc_not_in_natDigits _ h
  · exact absurd h2 (by decide)
  · exact esc_not_in_natDigits _ h3
  · exact absurd h4 (by decide)

/-- Left-justification adds only spaces, preserving escape-freedom. -/
theorem esc_not_in_ljust (w : Nat) (s : PyStr) (hs : esc ∉ s) :
    esc ∉ ljust w s := by
  intro h
  simp only [ljust, List.mem_append, List.mem_replicate] at h
  rcases h with h | ⟨_, h⟩
  · exact hs h
  · exact absurd h (by decide)

/-- C8 counterexample: with stdout a tty, a no-color environment signal
set, and `TERM=xterm-color`, the source still enables color and emits ANSI
escapes; likewise `TERM=dumb` with `COLORTERM=truecolor` is colored — the
no-color signal and the value `dumb` are never consulted. -/
theorem color_gating_counterexample :
    (Env.mk true [] ("xterm-color".toList) true).noColor = true ∧
    supportsColor ⟨true, [], "xterm-color".toList, true⟩ = true ∧
    esc ∈ formatCoverageCell ⟨true, [], "xterm-color".toList, true⟩ 1 2 70 18 true ∧
    supportsColor ⟨true, "truecolor".toList, "dumb".toList, false⟩ = true := by
  decide

/-- C8 amended: color is on iff stdout is a tty and (`COLORTERM` is
`truecolor`/`24bit` or `TERM` contains the substring `color`); the no-color
environment signal is never consulted (flipping it cannot change the
answer), a disabled gate yields a report cell with no ANSI escape
character, and an enabled gate renders a below-threshold cell red
(`\033[91m`) and an at-or-above-threshold cell green (`\033[92m`). -/
theorem color_gating_characterization :
    (∀ e : Env, supportsColor e =
      (e.isattyStdout && (e.colorterm == "truecolor".toList ||
        e.colorterm == "24bit".toList || hasSubstring ("color".toList) e.term))) ∧
    (∀ (tty : Bool) (ct tm : PyStr) (b₁ b₂ : Bool),
      supportsColor ⟨tty, ct, tm, b₁⟩ = supportsColor ⟨tty, ct, tm, b₂⟩) ∧
    (∀ (e : Env) (c t th w : Nat) (u : Bool), (u && supportsColor e) = false →
      esc ∉ formatCoverageCell e c t th w u) ∧
    (∀ (e : Env) (c t th w : Nat), supportsColor e = true → percent c t < th →
      List.isPrefixOf (esc :: "[91m".toList) (formatCoverageCell e c t th w true) = true) ∧
    (∀ (e : Env) (c t th w : Nat), supportsColor e = true → th ≤ percent c t →
      List.isPrefixOf (esc :: "[92m".toList) (formatCoverageCell e c t th w true) = true) := by
  refine ⟨?_, ?_, ?_, ?_, ?_⟩
  · intro e
    unfold supportsColor
    cases htty : e.isattyStdout
    · rfl
    · cases hA1 : (e.colorterm == "truecolor".toList) <;>
        cases hA2 : (e.colorterm == "24bit".toList) <;>
          cases hB : hasSubstring ("color".toList) e.term <;> rfl
  · intro tty ct tm b₁ b₂
    rfl
  · intro e c t th w u hu
    simp only [formatCoverageCell, hu, Bool.false_eq_true, if_false]
    exact esc_not_in_ljust _ _ (esc_not_in_cellText _ _ _)
  · intro e c t th w hsc hlt
    simp only [formatCoverageCell, hsc, Bool.and_true, if_true, if_pos hlt]
    rw [List.isPrefixOf_iff_prefix]
    exact List.prefix_append _ _
  · intro e c t th w hsc hge
    simp only [formatCoverageCell, hsc, Bool.and_true, if_true,
      if_neg (Nat.not_lt.mpr hge)]
    rw [List.isPrefixOf_iff_prefix]
    exact List.prefix_append _ _

/-- C8 witness: the characterization applied at concrete environments: a
non-tty environment gets an escape-free cell, and a colored environment
renders 50% against threshold 70 in red. -/
theorem color_gating_characterization_witness :
    esc ∉ formatCoverageCell ⟨false, [], [], false⟩ 1 2 70 18 true ∧
    List.isPrefixOf (esc :: "[91m".toList)
      (formatCoverageCell ⟨true, "truecolor".toList, [], false⟩ 1 2 70 18 true) = true :=
  ⟨color_gating_characterization.2.2.1 ⟨false, [], [], false⟩ 1 2 70 18 true (by decide),
    color_gating_characterization.2.2.2.1 ⟨true, "truecolor".toList, [], false⟩ 1 2 70 18
      (by decide) (by decide)⟩

/-- Summation over a one-step-longer list. -/
theorem metricSum_append_single (proj : RawFile → Metric) (l : List RawFile)
    (fd : RawFile) :
    metricSum proj (l ++ [fd]) = addMetric (metricSum proj l) (proj fd) := by
  simp [metricSum, addMetric]

/-- Filtering a one-step-longer list. -/
theorem filter_append_single (p : RawFile → Bool) (l : List RawFile)
    (fd : RawFile) :
    (l ++ [fd]).filter p = l.filter p ++ if p fd then [fd] else [] := by
  simp only [List.filter_append]
  congr 1
  by_cases h : p fd <;> simp [List.filter, h]

/-- External files are never group-worthy. -/
theorem groupWorthy_external (gn : Option PyStr) :
    groupWorthy Category.external gn = false := by
  cases gn <;> rfl

/-- A group-worthy classification carries a group name. -/
theorem groupWorthy_some {cat : Category} {gn : Option PyStr}
    (h : groupWorthy cat gn = true) : ∃ n, gn = some n := by
  cases gn with
  | none => simp [groupWorthy] at h
  | some n => exact ⟨n, rfl⟩

/-- The group names after a dict update: unchanged when the key already
exists, extended by the key otherwise. -/
theorem addToGroups_map_name (cat : Category) (n : PyStr) (fs : FileStats) :
    ∀ gs : List Group, (addToGroups cat n fs gs).map Group.name =
      if n ∈ gs.map Group.name then gs.map Group.name
      else gs.map Group.name ++ [n] := by
  intro gs
  induction gs with
  | nil => simp [addToGroups]
  | cons g gs ih =>
    by_cases hg : g.name = n
    · simp [addToGroups, hg, bumpGroup]
    · simp only [addToGroups, if_neg hg, List.map_cons, ih]
      by_cases hmem : n ∈ gs.map Group.name
      · simp [hmem, Ne.symm hg]
      · simp [hmem, Ne.symm hg]

/-- Membership after a dict update, given distinct keys: a surviving old
entry with a different key, the bumped old entry with the key, or a fresh
entry when the key was absent. -/
theorem mem_addToGroups (cat : Category) (n : PyStr) (fs : FileStats) :
    ∀ (gs : List Group) (g : Group), (gs.map Group.name).Nodup →
      g ∈ addToGroups cat n fs gs →
      (g ∈ gs ∧ g.name ≠ n) ∨
      (∃ g₀, g₀ ∈ gs ∧ g₀.name = n ∧ g = bumpGroup fs g₀) ∨
      (n ∉ gs.map Group.name ∧ g = ⟨n, cat, fs.regions, fs.functions, fs.lines⟩) := by
  intro gs
  induction gs with
  | nil =>
    intro g _ hmem
    simp only [addToGroups, List.mem_singleton] at hmem
    exact Or.inr (Or.inr ⟨by simp, hmem⟩)
  | cons g₁ gs ih =>
    intro g hnd hmem
    have hnd' : (∀ x ∈ gs, ¬x.name = g₁.name) ∧ (gs.map Group.name).Nodup := by
      simpa using hnd
    by_cases hg : g₁.name = n
    · simp only [addToGroups, if_pos hg, List.mem_cons] at hmem
      rcases hmem with rfl | hmem
      · exact Or.inr (Or.inl ⟨g₁, List.mem_cons_self _ _, hg, rfl⟩)
      · refine Or.inl ⟨List.mem_cons_of_mem _ hmem, fun hn => ?_⟩
        exact hnd'.1 g hmem (hn.trans hg.symm)
    · simp only [addToGroups, if_neg hg, List.mem_cons] at hmem
      rcases hmem with rfl | hmem
      · exact Or.inl ⟨List.mem_cons_self _ _, hg⟩
      · rcases ih g hnd'.2 hmem with ⟨h1, h2⟩ | ⟨g₀, hg₀, hname, hEq⟩ | ⟨hn, hEq⟩
        · exact Or.inl ⟨List.mem_cons_of_mem _ h1, h2⟩
        · exact Or.inr (Or.inl ⟨g₀, List.mem_cons_of_mem _ hg₀, hname, hEq⟩)
        · refine Or.inr (Or.inr ⟨?_, hEq⟩)
          simp only [List.map_cons, List.mem_cons]
          rintro (h | h)
          · exact hg h.symm
          · exact hn h

/-- C1 amended: for every input dataset, the individual-file list is
exactly the non-external records in input order; group names are pairwise
distinct (so no file's counts land in two group entries); every group's
three metrics are, covered and total alike, the sums over exactly the
files whose classification carries that group's *name* (the dict is keyed
by name alone, merging a library and a module that share a name); every
contributing file's name has a group entry; and the grand total sums
exactly the non-external files. -/
theorem aggregate_name_keyed_invariants (root : PyStr) (files : List RawFile) :
    (aggregateCoverageData root files).files =
      (files.filter (fun fd => !isExternalFile root fd)).map (fileStatsOf root) ∧
    ((aggregateCoverageData root files).groups.map Group.name).Nodup ∧
    (∀ g ∈ (aggregateCoverageData root files).groups,
      g.regions =
        metricSum (fun fd => fd.regions) (files.filter (contributesToName root g.name)) ∧
      g.functions =
        metricSum (fun fd => fd.functions) (files.filter (contributesToName root g.name)) ∧
      g.lines =
        metricSum (fun fd => fd.lines) (files.filter (contributesToName root g.name))) ∧
    (∀ (nm : PyStr) (fd : RawFile), fd ∈ files → contributesToName root nm fd = true →
      nm ∈ (aggregateCoverageData root files).groups.map Group.name) ∧
    (aggregateCoverageData root files).total.regions =
      metricSum (fun fd => fd.regions) (files.filter (fun fd => !isExternalFile root fd)) ∧
    (aggregateCoverageData root files).total.functions =
      metricSum (fun fd => fd.functions) (files.filter (fun fd => !isExternalFile root fd)) ∧
    (aggregateCoverageData root files).total.lines =
      metricSum (fun fd => fd.lines) (files.filter (fun fd => !isExternalFile root fd)) := by
  induction files using List.reverseRecOn with
  | nil =>
    refine ⟨rfl, by simp [aggregateCoverageData, initAgg], ?_, ?_, rfl, rfl, rfl⟩
    · intro g hg
      simp [aggregateCoverageData, initAgg] at hg
    · intro nm fd hfd
      simp at hfd
  | append_singleton fs fd ih =>
    obtain ⟨ihf, ihnd, ihg, ihc, ihtr, ihtf, ihtl⟩ := ih
    have hfold : aggregateCoverageData root (fs ++ [fd]) =
        aggStep root (aggregateCoverageData root fs) fd := by
      simp [aggregateCoverageData, List.foldl_append]
    by_cases hext :
        (categorizeFile (makeRelativePath fd.filename root)).1 = Category.external
    · have hstep : aggStep root (aggregateCoverageData root fs) fd =
          aggregateCoverageData root fs := by
        simp [aggStep, hext]
      have hextB : isExternalFile root fd = true := by
        simp [isExternalFile, hext]
      have hcontrib : ∀ nm, contributesToName root nm fd = false := by
        intro nm
        simp [contributesToName, hext, groupWorthy_external]
      have hfeq : (fs ++ [fd]).filter (fun fd => !isExternalFile root fd) =
          fs.filter (fun fd => !isExternalFile root fd) := by
        rw [filter_append_single]
        simp [hextB]
      have hceq : ∀ nm, (fs ++ [fd]).filter (contributesToName root nm) =
          fs.filter (contributesToName root nm) := by
        intro nm
        rw [filter_append_single]
        simp [hcontrib nm]
      rw [hfold, hstep]
      refine ⟨?_, ihnd, ?_, ?_, ?_, ?_, ?_⟩
      · rw [hfeq]; exact ihf
      · intro g hg
        rw [hceq]
        exact ihg g hg
      · intro nm fd' hfd' hc
        rcases List.mem_append.mp hfd' with h | h
        · exact ihc nm fd' h hc
        · rw [List.mem_singleton] at h
          subst h
          rw [hcontrib nm] at hc
          exact absurd hc (by simp)
      · rw [hfeq]; exact ihtr
      · rw [hfeq]; exact ihtf
      · rw [hfeq]; exact ihtl
    · have hextB : isExternalFile root fd = false := by
        simp [isExternalFile]
        exact hext
      have hfeq : (fs ++ [fd]).filter (fun fd => !isExternalFile root fd) =
          fs.filter (fun fd => !isExternalFile root fd) ++ [fd] := by
        rw [filter_append_single]
        simp [hextB]
      cases hgw : groupWorthy (categorizeFile (makeRelativePath fd.filename root)).1
          (categorizeFile (makeRelativePath fd.filename root)).2 with
      | false =>
        have hstep : aggStep root (aggregateCoverageData root fs) fd =
            { files := (aggregateCoverageData root fs).files ++ [fileStatsOf root fd]
              groups := (aggregateCoverageData root fs).groups
              total := addTotals (aggregateCoverageData root fs).total
                (fileStatsOf root fd) } := by
          simp [aggStep, hext, hgw, fileStatsOf]
        have hcontrib : ∀ nm, contributesToName root nm fd = false := by
          intro nm
          simp [contributesToName, hgw]
        have hceq : ∀ nm, (fs ++ [fd]).filter (contributesToName root nm) =
            fs.filter (contributesToName root nm) := by
          intro nm
          rw [filter_append_single]
          simp [hcontrib nm]
        rw [hfold, hstep]
        refine ⟨?_, ihnd, ?_, ?_, ?_, ?_, ?_⟩
        · rw [hfeq, List.map_append]
          simp [ihf]
        · intro g hg
          rw [hceq]
          exact ihg g hg
        · intro nm fd' hfd' hc
          rcases List.mem_append.mp hfd' with h | h
          · exact ihc nm fd' h hc
          · rw [List.mem_singleton] at h
            subst h
            rw [hcontrib nm] at hc
            exact absurd hc (by simp)
        · rw [hfeq, metricSum_append_single]
          simp [addTotals, fileStatsOf, ihtr]
        · rw [hfeq, metricSum_append_single]
          simp [addTotals, fileStatsOf, ihtf]
        · rw [hfeq, metricSum_append_single]
          simp [addTotals, fileStatsOf, ihtl]
      | true =>
        obtain ⟨n, hn⟩ := groupWorthy_some hgw
        have hgw' : groupWorthy (categorizeFile (makeRelativePath fd.filename root)).1
            (some n) = true := hn ▸ hgw
        have hgetD : (categorizeFile (makeRelativePath fd.filename root)).2.getD [] = n := by
          rw [hn]
          rfl
        have hstep : aggStep root (aggregateCoverageData root fs) fd =
            { files := (aggregateCoverageData root fs).files ++ [fileStatsOf root fd]
              groups := addToGroups (categorizeFile (makeRelativePath fd.filename root)).1
                n (fileStatsOf root fd) (aggregateCoverageData root fs).groups
              total := addTotals (aggregateCoverageData root fs).total
                (fileStatsOf root fd) } := by
          simp [aggStep, hext, hgw, hgetD, fileStatsOf]
        have hcself : contributesToName root n fd = true := by
          simp [contributesToName, hn, hgw']
        have hcother : ∀ nm, nm ≠ n → contributesToName root nm fd = false := by
          intro nm hne
          simp [contributesToName, hn, hgw']
          exact fun h => hne h.symm
        have hnd2 : ((addToGroups (categorizeFile (makeRelativePath fd.filename root)).1
            n (fileStatsOf root fd) (aggregateCoverageData root fs).groups).map
              Group.name).Nodup := by
          rw [addToGroups_map_name]
          by_cases hmem : n ∈ (aggregateCoverageData root fs).groups.map Group.name
          · simpa [hmem] using ihnd
          · simp [hmem, List.nodup_append, ihnd]
        rw [hfold, hstep]
        refine ⟨?_, hnd2, ?_, ?_, ?_, ?_, ?_⟩
        · rw [hfeq, List.map_append]
          simp [ihf]
        · intro g hg
          rcases mem_addToGroups _ n _ _ g ihnd hg with
            ⟨hin, hne⟩ | ⟨g₀, hg₀, hg₀n, rfl⟩ | ⟨hnot, rfl⟩
          · have hceq : (fs ++ [fd]).filter (contributesToName root g.name) =
                fs.filter (contributesToName root g.name) := by
              rw [filter_append_single]
              simp [hcother g.name hne]

            rw [hceq]
            exact ihg g hin
          · have hname : (bumpGroup (fileStatsOf root fd) g₀).name = g₀.name := rfl
            rw [hname, hg₀n]
            have hfe2 : (fs ++ [fd]).filter (contributesToName root n) =
                fs.filter (contributesToName root n) ++ [fd] := by
              rw [filter_append_single]
              simp [hcself]
            obtain ⟨e1, e2, e3⟩ := ihg g₀ hg₀
            rw [hg₀n] at e1 e2 e3
            rw [hfe2]
            refine ⟨?_, ?_, ?_⟩ <;>
              simp [bumpGroup, fileStatsOf, metricSum_append_single, e1, e2, e3]
          · have hempty : fs.filter (contributesToName root n) = [] := by
              rw [List.filter_eq_nil_iff]
              intro a ha hc
              exact hnot (ihc n a ha (by simpa using hc))
            have hfe2 : (fs ++ [fd]).filter (contributesToName root n) = [fd] := by
              rw [filter_append_single, hempty]
              simp [hcself]
            refine ⟨?_, ?_, ?_⟩ <;> simp [hfe2, metricSum, fileStatsOf]
        · intro nm fd' hfd' hc
          rw [addToGroups_map_name]
          rcases List.mem_append.mp hfd' with h | h
          · have hold := ihc nm fd' h hc
            by_cases hmem : n ∈ (aggregateCoverageData root fs).groups.map Group.name
            · simpa [hmem] using hold
            · simp only [if_neg hmem, List.mem_append]
              exact Or.inl hold
          · rw [List.mem_singleton] at h
            subst h
            have hnm : nm = n := by
              by_contra hne
              rw [hcother nm hne] at hc
              exact absurd hc (by simp)
            subst hnm
            by_cases hmem : nm ∈ (aggregateCoverageData root fs).groups.map Group.name
            · simp [hmem]
            · simp [hmem]
        · rw [hfeq, metricSum_append_single]
          simp [addTotals, fileStatsOf, ihtr]
        · rw [hfeq, metricSum_append_single]
          simp [addTotals, fileStatsOf, ihtf]
        · rw [hfeq, metricSum_append_single]
          simp [addTotals, fileStatsOf, ihtl]

/-- C1 counterexample: with the two records `libs/foo/x.rs` (regions 1/1)
and `modules/foo/y.rs` (regions 1/1), the output contains a single group
`(lib, foo)` whose regions are 2/2, yet only `libs/foo/x.rs` is classified
into `(lib, foo)` — the group's counts are not the sums over exactly the
files classified into that (kind, name) group, because the dict is keyed by
name alone and the module file was merged in. -/
theorem aggregate_group_kind_collision_counterexample :
    (aggregateCoverageData []
      [⟨"libs/foo/x.rs".toList, ⟨1, 1⟩, ⟨0, 0⟩, ⟨0, 0⟩⟩,
       ⟨"modules/foo/y.rs".toList, ⟨1, 1⟩, ⟨0, 0⟩, ⟨0, 0⟩⟩]).groups =
      [⟨"foo".toList, Category.lib, ⟨2, 2⟩, ⟨0, 0⟩, ⟨0, 0⟩⟩] ∧
    ([⟨"libs/foo/x.rs".toList, ⟨1, 1⟩, ⟨0, 0⟩, ⟨0, 0⟩⟩,
      ⟨"modules/foo/y.rs".toList, ⟨1, 1⟩, ⟨0, 0⟩, ⟨0, 0⟩⟩].filter
        (classifiedInto [] ⟨"foo".toList, Category.lib, ⟨2, 2⟩, ⟨0, 0⟩, ⟨0, 0⟩⟩)) =
      [⟨"libs/foo/x.rs".toList, ⟨1, 1⟩, ⟨0, 0⟩, ⟨0, 0⟩⟩] ∧
    (⟨"foo".toList, Category.lib, ⟨2, 2⟩, ⟨0, 0⟩, ⟨0, 0⟩⟩ : Group).regions ≠
      metricSum (fun fd => fd.regions)
        ([⟨"libs/foo/x.rs".toList, ⟨1, 1⟩, ⟨0, 0⟩, ⟨0, 0⟩⟩,
          ⟨"modules/foo/y.rs".toList, ⟨1, 1⟩, ⟨0, 0⟩, ⟨0, 0⟩⟩].filter
          (classifiedInto [] ⟨"foo".toList, Category.lib, ⟨2, 2⟩, ⟨0, 0⟩, ⟨0, 0⟩⟩)) := by
  decide

/-- C1 witness: the name-keyed invariant applied at a one-file dataset. -/
theorem aggregate_name_keyed_invariants_witness :
    (⟨"b".toList, Category.lib, ⟨4, 4⟩, ⟨0, 0⟩, ⟨0, 0⟩⟩ : Group).regions =
      metricSum (fun fd => fd.regions)
        ([⟨"libs/b/y.rs".toList, ⟨4, 4⟩, ⟨0, 0⟩, ⟨0, 0⟩⟩].filter
          (contributesToName []
            (⟨"b".toList, Category.lib, ⟨4, 4⟩, ⟨0, 0⟩, ⟨0, 0⟩⟩ : Group).name)) :=
  ((aggregate_name_keyed_invariants []
      [⟨"libs/b/y.rs".toList, ⟨4, 4⟩, ⟨0, 0⟩, ⟨0, 0⟩⟩]).2.2.1
    ⟨"b".toList, Category.lib, ⟨4, 4⟩, ⟨0, 0⟩, ⟨0, 0⟩⟩ (by decide)).1

/-- The frame relation is reflexive. -/
theorem linesOnlyExtends_refl (g : Group) : linesOnlyExtends g g :=
  ⟨rfl, rfl, rfl, rfl, rfl, Nat.le_refl _⟩

/-- The frame relation is transitive. -/
theorem linesOnlyExtends_trans {g₀ g₁ g₂ : Group}
    (h₁ : linesOnlyExtends g₀ g₁) (h₂ : linesOnlyExtends g₁ g₂) :
    linesOnlyExtends g₀ g₂ :=
  ⟨h₁.1.trans h₂.1, h₁.2.1.trans h₂.2.1, h₁.2.2.1.trans h₂.2.2.1,
    h₁.2.2.2.1.trans h₂.2.2.2.1, h₁.2.2.2.2.1.trans h₂.2.2.2.2.1,
    h₁.2.2.2.2.2.trans h₂.2.2.2.2.2⟩

/-- Groups after the expand-block lookup: untouched, lines-bumped, or a
fresh lines-bumped zero group. -/
theorem mem_updateFirstGroup (cat : Category) (n : PyStr) (loc : Nat) :
    ∀ (gs : List Group) (g : Group), g ∈ updateFirstGroup cat n loc gs →
      g ∈ gs ∨ (∃ g₀ ∈ gs, g = addLinesTotal loc g₀) ∨
        g = addLinesTotal loc (newZeroGroup cat n) := by
  intro gs
  induction gs with
  | nil =>
    intro g hg
    simp only [updateFirstGroup, List.mem_singleton] at hg
    exact Or.inr (Or.inr hg)
  | cons g₁ gs ih =>
    intro g hg
    by_cases hcond : g₁.name = n ∧ g₁.type = cat
    · simp only [updateFirstGroup, if_pos hcond, List.mem_cons] at hg
      rcases hg with rfl | hg
      · exact Or.inr (Or.inl ⟨g₁, List.mem_cons_self _ _, rfl⟩)
      · exact Or.inl (List.mem_cons_of_mem _ hg)
    · simp only [updateFirstGroup, if_neg hcond, List.mem_cons] at hg
      rcases hg with rfl | hg
      · exact Or.inl (List.mem_cons_self _ _)
      · rcases ih g hg with h | ⟨g₀, hg₀, rfl⟩ | h
        · exact Or.inl (List.mem_cons_of_mem _ h)
        · exact Or.inr (Or.inl ⟨g₀, List.mem_cons_of_mem _ hg₀, rfl⟩)
        · exact Or.inr (Or.inr h)

/-- One expand-loop iteration only grows `lines.total` values. -/
theorem expandStep_frame (covered : List PyStr) (st : AggState)
    (entry : PyStr × Nat) :
    ((expandStep covered st entry).total.regions = st.total.regions ∧
      (expandStep covered st entry).total.functions = st.total.functions ∧
      (expandStep covered st entry).total.lines.covered = st.total.lines.covered ∧
      st.total.lines.total ≤ (expandStep covered st entry).total.lines.total) ∧
    (∀ fs ∈ (expandStep covered st entry).files,
      fs ∈ st.files ∨ fs = syntheticRecord entry) ∧
    (∀ g ∈ (expandStep covered st entry).groups,
      (∃ g₀ ∈ st.groups, linesOnlyExtends g₀ g) ∨
        (g.regions = ⟨0, 0⟩ ∧ g.functions = ⟨0, 0⟩ ∧ g.lines.covered = 0)) := by
  by_cases hcov : entry.1 ∈ covered
  · simp only [expandStep, if_pos hcov]
    refine ⟨⟨by simp, by simp, by simp, by simp⟩, fun fs h => Or.inl h,
      fun g hg => ?_⟩
    exact Or.inl ⟨g, hg, linesOnlyExtends_refl g⟩
  · simp only [expandStep, if_neg hcov]
    refine ⟨⟨by simp, by simp, by simp, by simp⟩, ?_, ?_⟩
    · intro fs hfs
      rcases List.mem_append.mp hfs with h | h
      · exact Or.inl h
      · exact Or.inr (List.mem_singleton.mp h)
    · intro g hg
      by_cases hgw : groupWorthy (categorizeFile entry.1).1 (categorizeFile entry.1).2
      · simp only [if_pos hgw] at hg
        rcases mem_updateFirstGroup _ _ _ _ g hg with h | ⟨g₀, hg₀, rfl⟩ | rfl
        · exact Or.inl ⟨g, h, linesOnlyExtends_refl g⟩
        · exact Or.inl ⟨g₀, hg₀,
            ⟨rfl, rfl, rfl, rfl, rfl, Nat.le_add_right _ _⟩⟩
        · exact Or.inr ⟨rfl, rfl, rfl⟩
      · simp only [if_neg hgw] at hg
        exact Or.inl ⟨g, hg, linesOnlyExtends_refl g⟩

/-- The fold over the workspace listing preserves the frame. -/
theorem expandFold_frame (covered : List PyStr) :
    ∀ (ws : List (PyStr × Nat)) (st : AggState),
      ((ws.foldl (expandStep covered) st).total.regions = st.total.regions ∧
        (ws.foldl (expandStep covered) st).total.functions = st.total.functions ∧
        (ws.foldl (expandStep covered) st).total.lines.covered =
          st.total.lines.covered ∧
        st.total.lines.total ≤ (ws.foldl (expandStep covered) st).total.lines.total) ∧
      (∀ fs ∈ (ws.foldl (expandStep covered) st).files,
        fs ∈ st.files ∨ ∃ e ∈ ws, fs = syntheticRecord e) ∧
      (∀ g ∈ (ws.foldl (expandStep covered) st).groups,
        (∃ g₀ ∈ st.groups, linesOnlyExtends g₀ g) ∨
          (g.regions = ⟨0, 0⟩ ∧ g.functions = ⟨0, 0⟩ ∧ g.lines.covered = 0)) := by
  intro ws
  induction ws with
  | nil =>
    intro st
    exact ⟨⟨rfl, rfl, rfl, Nat.le_refl _⟩, fun fs h => Or.inl h,
      fun g hg => Or.inl ⟨g, hg, linesOnlyExtends_refl g⟩⟩
  | cons e ws ih =>
    intro st
    obtain ⟨⟨str, stf, stc, stt⟩, sfs, sgs⟩ := expandStep_frame covered st e
    obtain ⟨⟨itr, itf, itc, itt⟩, ifs, igs⟩ := ih (expandStep covered st e)
    refine ⟨⟨itr.trans str, itf.trans stf, itc.trans stc, stt.trans itt⟩, ?_, ?_⟩
    · intro fs hfs
      rcases ifs fs hfs with h | ⟨e', he', hEq⟩
      · rcases sfs fs h with h' | h'
        · exact Or.inl h'
        · exact Or.inr ⟨e, List.mem_cons_self _ _, h'⟩
      · exact Or.inr ⟨e', List.mem_cons_of_mem _ he', hEq⟩
    · intro g hg
      rcases igs g hg with ⟨g₁, hg₁, hext⟩ | hz
      · rcases sgs g₁ hg₁ with ⟨g₀, hg₀, hext₀⟩ | hz₁
        · exact Or.inl ⟨g₀, hg₀, linesOnlyExtends_trans hext₀ hext⟩
        · refine Or.inr ⟨?_, ?_, ?_⟩
          · exact hext.2.2.1 ▸ hz₁.1
          · exact hext.2.2.2.1 ▸ hz₁.2.1
          · exact hext.2.2.2.2.1 ▸ hz₁.2.2
      · exact Or.inr hz

/-- C10: synthesised records for untested workspace files carry zero
covered counts for all three metrics and a nonzero total only in `lines`
(the non-blank line count); enabling expansion leaves the regions and
functions counts of the grand total and of every surviving group
unchanged, keeps every covered line count, can only increase `lines`
totals, and any newly created group has all-zero regions, functions and
covered lines. -/
theorem expand_to_project_frame (st : AggState) (ws : List (PyStr × Nat)) :
    (∀ e : PyStr × Nat, (syntheticRecord e).regions = ⟨0, 0⟩ ∧
      (syntheticRecord e).functions = ⟨0, 0⟩ ∧
      (syntheticRecord e).lines = ⟨0, e.2⟩) ∧
    ((expandToProject st ws).total.regions = st.total.regions ∧
      (expandToProject st ws).total.functions = st.total.functions ∧
      (expandToProject st ws).total.lines.covered = st.total.lines.covered ∧
      st.total.lines.total ≤ (expandToProject st ws).total.lines.total) ∧
    (∀ fs ∈ (expandToProject st ws).files,
      fs ∈ st.files ∨ ∃ e ∈ ws, fs = syntheticRecord e) ∧
    (∀ g ∈ (expandToProject st ws).groups,
      (∃ g₀ ∈ st.groups, linesOnlyExtends g₀ g) ∨
        (g.regions = ⟨0, 0⟩ ∧ g.functions = ⟨0, 0⟩ ∧ g.lines.covered = 0)) := by
  obtain ⟨ht, hf, hgg⟩ := expandFold_frame (st.files.map FileStats.path) ws st
  exact ⟨fun e => ⟨rfl, rfl, rfl⟩, ht, hf, hgg⟩

/-- C10 witness: expanding a one-group state with one untested workspace
file bumps only that group's lines total. -/
theorem expand_to_project_frame_witness :
    ∃ g₀ ∈ (AggState.mk []
        [⟨"g".toList, Category.module, ⟨1, 2⟩, ⟨3, 4⟩, ⟨5, 6⟩⟩]
        ⟨⟨1, 2⟩, ⟨3, 4⟩, ⟨5, 6⟩⟩).groups,
      linesOnlyExtends g₀ ⟨"g".toList, Category.module, ⟨1, 2⟩, ⟨3, 4⟩, ⟨5, 13⟩⟩ := by
  have h := (expand_to_project_frame
    ⟨[], [⟨"g".toList, Category.module, ⟨1, 2⟩, ⟨3, 4⟩, ⟨5, 6⟩⟩],
      ⟨⟨1, 2⟩, ⟨3, 4⟩, ⟨5, 6⟩⟩⟩ [("modules/g/z.rs".toList, 7)]).2.2.2
    ⟨"g".toList, Category.module, ⟨1, 2⟩, ⟨3, 4⟩, ⟨5, 13⟩⟩ (by decide)
  rcases h with h | hz
  · exact h
  · exact absurd hz.1 (by decide)

end HyperspotCoverage
